import Mathlib

set_option maxRecDepth 10000

/-!
Verification of the flupy repository (pedagogical fluent-python examples).

Shallow embedding of the code under src/:
- src/fluent_python/french_deck.py : Card, FrenchDeck (ranks, suits, suit_values,
  the 52-card list, the sorting key and the sorted deck);
- src/fluent_python/vector.py : Vector (add, mul, bool, abs);
- src/tests/test_first_class_functions.py : factorial, BingoCage, tag.

Python ints are embedded as Int, Python strings as String, Python lists as List.
Python dicts (suit_values, the attrs of tag) are embedded as association lists in
insertion order with pairwise-distinct keys. A raised exception is embedded as the
error branch of Except. Python sorted(xs, key=f) is a stable ascending sort, embedded
with List.insertionSort.
-/

namespace Flupy

/-- Card from french_deck.py: NamedTuple with a rank field and a suit field. -/
structure Card where
  rank : String
  suit : String
deriving DecidableEq

namespace FrenchDeck

/-- ranks = [str(n) for n in range(2, 11)] + list("JQKA"). -/
def ranks : List String := (List.range' 2 9).map (fun n => toString n) ++ ["J", "Q", "K", "A"]

/-- suits = "spades diamonds clubs hearts".split(). -/
def suits : List String := ["spades", "diamonds", "clubs", "hearts"]

/-- suit_values = dict(spades=3, hearts=2, diamonds=1, clubs=0), as an association list. -/
def suit_values : List (String × Nat) := [("spades", 3), ("hearts", 2), ("diamonds", 1), ("clubs", 0)]

/-- The list built by FrenchDeck.__init__:
[Card(rank, suit) for suit in self.suits for rank in self.ranks]. -/
def cards : List Card := suits.flatMap (fun suit => ranks.map (fun rank => ⟨rank, suit⟩))

/-- len(deck), i.e. FrenchDeck.__len__ on a fresh deck. -/
def size : Nat := cards.length

/-- FrenchDeck.sorting: ranks.index(card.rank) * len(self.suit_values) +
self.suit_values[card.suit]. A rank missing from ranks raises ValueError and a suit
missing from suit_values raises KeyError; both failures are embedded as none. -/
def sorting (card : Card) : Option Nat :=
  match ranks.findIdx? (fun r => r == card.rank), suit_values.lookup card.suit with
  | some rank_value, some sv => some (rank_value * suit_values.length + sv)
  | _, _ => none

/-- The total sort key applied to deck cards; on every card of the deck the sorting
value is defined, so the default is never used there. -/
def sortKey (card : Card) : Nat := (sorting card).getD 0

/-- FrenchDeck.sorted: sorted(self, key=self.sorting), a stable ascending sort of the
52 cards by the sorting key. -/
def sortedCards : List Card := List.insertionSort (fun a b => sortKey a ≤ sortKey b) cards

end FrenchDeck

/-- Vector from vector.py: a 2D pair with numeric x and y fields (the module uses int
components throughout). -/
structure Vector where
  x : Int
  y : Int
deriving DecidableEq

/-- Vector.__add__: builds Vector(self.x + other.x, self.y + other.y). -/
def Vector.add (v w : Vector) : Vector := ⟨v.x + w.x, v.y + w.y⟩

/-- Vector.__mul__: builds Vector(self.x * scalar, self.y * scalar). -/
def Vector.mul (v : Vector) (scalar : Int) : Vector := ⟨v.x * scalar, v.y * scalar⟩

/-- Python truthiness of an int: bool(n) is True exactly when n is nonzero. -/
def pyBool (n : Int) : Bool := n != 0

/-- Python `a or b` on ints: a when a is truthy, otherwise b. -/
def pyOr (a b : Int) : Int := if pyBool a then a else b

/-- Vector.__bool__: bool(self.x or self.y). -/
def Vector.bool (v : Vector) : Bool := pyBool (pyOr v.x v.y)

/-- Vector.__abs__: math.hypot(self.x, self.y), embedded as the exact real Euclidean
norm of the integer pair. -/
noncomputable def Vector.abs (v : Vector) : ℝ := Real.sqrt ((v.x : ℝ) ^ 2 + (v.y : ℝ) ^ 2)

/-- Heap step of Vector.__add__. A store (list of Vector objects) models the Python
heap and an index models an object reference: the method reads the fields of self and
other and allocates a fresh Vector at the end of the store, returning the new store
and the reference of the freshly built object. -/
def Vector.addRef (store : List Vector) (self other : Nat) : List Vector × Nat :=
  let s := store.getD self ⟨0, 0⟩
  let o := store.getD other ⟨0, 0⟩
  (store ++ [⟨s.x + o.x, s.y + o.y⟩], store.length)

/-- Heap step of Vector.__mul__, as in Vector.addRef: reads self, allocates a fresh
Vector, returns the new store and the new reference. -/
def Vector.mulRef (store : List Vector) (self : Nat) (scalar : Int) : List Vector × Nat :=
  let s := store.getD self ⟨0, 0⟩
  (store ++ [⟨s.x * scalar, s.y * scalar⟩], store.length)

/-- factorial from test_first_class_functions.py:
return 1 if n < 2 else n * factorial(n - 1). -/
def factorial (n : Int) : Int :=
  if _h : n < 2 then 1 else n * factorial (n - 1)
termination_by n.toNat
decreasing_by omega

/-- Python exceptions raised by the code under test, carrying their message. -/
inductive PyError where
  | indexError : String → PyError
  | lookupError : String → PyError
deriving DecidableEq

/-- Python list.pop(): removes and returns the last item, raising IndexError on an
empty list. -/
def listPop (l : List Int) : Except PyError (Int × List Int) :=
  match l.getLast? with
  | some x => .ok (x, l.dropLast)
  | none => .error (.indexError "pop from empty list")

/-- BingoCage state: the _items list. The constructor copies list(items) and
random.shuffle permutes it in place, so a cage built from items holds some
permutation of items. -/
structure BingoCage where
  _items : List Int
deriving DecidableEq

/-- BingoCage.pick: try return self._items.pop() except IndexError:
raise LookupError("pick from empty BingoCage"). -/
def BingoCage.pick (c : BingoCage) : Except PyError (Int × BingoCage) :=
  match listPop c._items with
  | .ok (x, rest) => .ok (x, ⟨rest⟩)
  | .error (.indexError _) => .error (.lookupError "pick from empty BingoCage")
  | .error e => .error e

/-- Python dict item assignment d[k] = v on an association list with distinct keys:
replace the stored value when the key is present, otherwise append the new pair. -/
def dictSet (d : List (String × String)) (k v : String) : List (String × String) :=
  if d.any (fun p => p.1 == k) then d.map (fun p => if p.1 == k then (k, v) else p)
  else d ++ [(k, v)]

/-- Strict lexicographic order on code point lists: the first differing character
decides, a strict prefix is smaller. -/
def charListLt : List Char → List Char → Bool
  | _, [] => false
  | [], _ :: _ => true
  | a :: as, b :: bs => if a < b then true else if b < a then false else charListLt as bs

/-- Python strict string comparison: lexicographic by Unicode code point. -/
def strLt (a b : String) : Bool := charListLt a.data b.data

/-- Python string comparison a <= b. -/
def strLe (a b : String) : Bool := strLt a b || a == b

/-- Python tuple comparison on (key, value) string pairs, the order used by
sorted(attrs.items()). -/
def pairLeB (a b : String × String) : Bool :=
  strLt a.1 b.1 || (a.1 == b.1 && strLe a.2 b.2)

/-- Comparison of attribute pairs by key alone, the order named by the specification
(sorted key order). -/
def keyLeB (a b : String × String) : Bool := strLe a.1 b.1

/-- One formatted attribute of tag: the string of one blank, the key, an equals sign and the quoted value. -/
def attrItem (p : String × String) : String := " " ++ p.1 ++ "=\"" ++ p.2 ++ "\""

/-- tag from test_first_class_functions.py. content is the *content tuple, cls the
keyword-only cls argument (None embedded as none) and attrs the **attrs dict as an
association list in insertion order. -/
def tag (name : String) (content : List String) (cls : Option String)
    (attrs : List (String × String)) : String :=
  let attrs2 := match cls with
    | some c => dictSet attrs "class" c
    | none => attrs
  let attr_str := if attrs2.isEmpty then ""
    else String.join ((List.insertionSort (fun a b => pairLeB a b = true) attrs2).map attrItem)
  if content.isEmpty then "<" ++ name ++ attr_str ++ " />"
  else String.intercalate "\n"
    (content.map (fun c => "<" ++ name ++ attr_str ++ ">" ++ c ++ "</" ++ name ++ ">"))

/-- Restatement of the claimed behaviour of tag, written from the specification words:
ATTRS lists every keyword attribute as blank-key-equals-quoted-value in sorted key order, a non-None
cls is emitted under the attribute name "class"; with no content the result is the
single self-closing string, with content the per-item strings joined by newlines. -/
def tagSpec (name : String) (content : List String) (cls : Option String)
    (attrs : List (String × String)) : String :=
  let attrs2 := match cls with
    | some c => dictSet attrs "class" c
    | none => attrs
  let attr_str := String.join ((List.insertionSort (fun a b => keyLeB a b = true) attrs2).map attrItem)
  match content with
  | [] => "<" ++ name ++ attr_str ++ " />"
  | cs => String.intercalate "\n"
      (cs.map (fun c => "<" ++ name ++ attr_str ++ ">" ++ c ++ "</" ++ name ++ ">"))

/-- Helper: factorial agrees with Nat.factorial on natural number inputs. -/
theorem factorial_natCast (m : Nat) : factorial (m : Int) = (Nat.factorial m : Int) := by
  induction m with
  | zero => simp [factorial, Nat.factorial]
  | succ k ih =>
    rw [factorial]
    by_cases h : ((k + 1 : Nat) : Int) < 2
    · have hk : k = 0 := by omega
      subst hk
      simp [Nat.factorial]
    · rw [dif_neg h]
      have h1 : ((k + 1 : Nat) : Int) - 1 = (k : Int) := by push_cast; ring
      rw [h1, ih, Nat.factorial_succ]
      push_cast
      ring

/-- C4: Vector addition is elementwise and scalar multiplication multiplies both
components: Vector(a,b) + Vector(c,d) = Vector(a+c, b+d) and
Vector(a,b) * k = Vector(a*k, b*k). -/
theorem C4_vector_add_mul (a b c d k : Int) :
    Vector.add ⟨a, b⟩ ⟨c, d⟩ = ⟨a + c, b + d⟩ ∧
    Vector.mul ⟨a, b⟩ k = ⟨a * k, b * k⟩ :=
  ⟨rfl, rfl⟩

/-- C10: bool(Vector(x, y)) is False exactly when x = 0 and y = 0. -/
theorem C10_vector_bool_iff (x y : Int) :
    Vector.bool ⟨x, y⟩ = false ↔ x = 0 ∧ y = 0 := by
  by_cases hx : x = 0 <;> simp [Vector.bool, pyOr, pyBool, hx]

/-- C8: abs(Vector(x, y)) is the Euclidean norm sqrt(x^2 + y^2); in particular
abs(Vector(3, 4)) = 5 and abs(Vector(3, 4) * 3) = 15. -/
theorem C8_vector_abs :
    (∀ v : Vector, Vector.abs v = Real.sqrt ((v.x : ℝ) ^ 2 + (v.y : ℝ) ^ 2)) ∧
    Vector.abs ⟨3, 4⟩ = 5 ∧ Vector.abs (Vector.mul ⟨3, 4⟩ 3) = 15 := by
  refine ⟨fun v => rfl, ?_, ?_⟩
  · show Real.sqrt (((3 : Int) : ℝ) ^ 2 + ((4 : Int) : ℝ) ^ 2) = 5
    rw [show (((3 : Int) : ℝ) ^ 2 + ((4 : Int) : ℝ) ^ 2) = 5 ^ 2 by push_cast; norm_num]
    exact Real.sqrt_sq (by norm_num)
  · have hm : Vector.mul ⟨3, 4⟩ 3 = ⟨9, 12⟩ := by decide
    rw [hm]
    show Real.sqrt (((9 : Int) : ℝ) ^ 2 + ((12 : Int) : ℝ) ^ 2) = 15
    rw [show (((9 : Int) : ℝ) ^ 2 + ((12 : Int) : ℝ) ^ 2) = 15 ^ 2 by push_cast; norm_num]
    exact Real.sqrt_sq (by norm_num)

/-- C7: Card fields are fixed at construction, and the heap steps of Vector add and
mul allocate a fresh object (a reference distinct from every existing one, operands
included) while leaving every object already in the store unchanged. -/
theorem C7_immutability_frame (store : List Vector) (i j : Nat) (k : Int) (r s : String)
    (hi : i < store.length) (hj : j < store.length) :
    ((Vector.addRef store i j).1.take store.length = store ∧
      (Vector.addRef store i j).2 ≠ i ∧ (Vector.addRef store i j).2 ≠ j) ∧
    ((Vector.mulRef store i k).1.take store.length = store ∧
      (Vector.mulRef store i k).2 ≠ i) ∧
    ((Card.mk r s).rank = r ∧ (Card.mk r s).suit = s) := by
  refine ⟨⟨?_, ?_, ?_⟩, ⟨?_, ?_⟩, rfl, rfl⟩
  · exact List.take_left _ _
  · exact ne_of_gt hi
  · exact ne_of_gt hj
  · exact List.take_left _ _
  · exact ne_of_gt hi

/-- Witness for C7 at a one-object store. -/
theorem C7_immutability_frame_witness :
    ((Vector.addRef [⟨1, 2⟩] 0 0).1.take 1 = [⟨1, 2⟩] ∧
      (Vector.addRef [⟨1, 2⟩] 0 0).2 ≠ 0 ∧ (Vector.addRef [⟨1, 2⟩] 0 0).2 ≠ 0) ∧
    ((Vector.mulRef [⟨1, 2⟩] 0 5).1.take 1 = [⟨1, 2⟩] ∧ (Vector.mulRef [⟨1, 2⟩] 0 5).2 ≠ 0) ∧
    ((Card.mk "Q" "hearts").rank = "Q" ∧ (Card.mk "Q" "hearts").suit = "hearts") :=
  C7_immutability_frame [⟨1, 2⟩] 0 0 5 "Q" "hearts" (by decide) (by decide)

/-- C5: factorial computes n! on every non-negative integer, and factorial(42) is the
stated 52-digit value. -/
theorem C5_factorial_correct :
    (∀ n : Int, 0 ≤ n → factorial n = (Nat.factorial n.toNat : Int)) ∧
    factorial 42 = 1405006117752879898543142606244511569936384000000000 := by
  constructor
  · intro n hn
    have h := factorial_natCast n.toNat
    rwa [Int.toNat_of_nonneg hn] at h
  · have h := factorial_natCast 42
    have h42 : ((42 : Nat) : Int) = (42 : Int) := by norm_num
    rw [h42] at h
    rw [h]
    decide

/-- Witness for C5 at n = 5. -/
theorem C5_factorial_correct_witness :
    factorial 5 = (Nat.factorial (Int.toNat 5) : Int) :=
  C5_factorial_correct.1 5 (by norm_num)

/-- C9: the recursion bottoms out at once on every integer below 2, negatives
included, so factorial is total there and returns 1. -/
theorem C9_factorial_below_two (n : Int) (h : n < 2) : factorial n = 1 := by
  rw [factorial]
  exact dif_pos h

/-- Witness for C9 at n = -5. -/
theorem C9_factorial_below_two_witness : factorial (-5) = 1 :=
  C9_factorial_below_two (-5) (by norm_num)

/-- C3: a fresh deck holds exactly 52 distinct rank/suit records, every one of the
13 ranks paired with every one of the 4 suits, laid out suit-major in the order
spades, diamonds, clubs, hearts with ranks 2..A inside each suit. -/
theorem C3_deck_layout :
    FrenchDeck.size = 52 ∧ FrenchDeck.cards.length = 52 ∧ FrenchDeck.cards.Nodup ∧
    FrenchDeck.ranks.length = 13 ∧ FrenchDeck.suits.length = 4 ∧
    (FrenchDeck.ranks.all fun r =>
      FrenchDeck.suits.all fun s => FrenchDeck.cards.contains ⟨r, s⟩) = true ∧
    FrenchDeck.cards = ["spades", "diamonds", "clubs", "hearts"].flatMap
      (fun s => ["2", "3", "4", "5", "6", "7", "8", "9", "10", "J", "Q", "K", "A"].map
        (fun r => ⟨r, s⟩)) := by
  refine ⟨?_, ?_, ?_, ?_, ?_, ?_, ?_⟩ <;> decide

/-- C1: sorted() returns the deck ascending by the sorting key, which is the rank
index times the number of suit_values entries (4) plus the suit value (spades 3,
hearts 2, diamonds 1, clubs 0); the key is defined on every deck card, the first
sorted card is the two of clubs (key 0) and the last the ace of spades (key 51). -/
theorem C1_sorted_deck :
    List.Sorted (fun a b : Card => FrenchDeck.sortKey a ≤ FrenchDeck.sortKey b)
      FrenchDeck.sortedCards ∧
    FrenchDeck.sortedCards.Perm FrenchDeck.cards ∧
    FrenchDeck.sortedCards.length = 52 ∧
    FrenchDeck.sortedCards.head? = some ⟨"2", "clubs"⟩ ∧
    FrenchDeck.sortedCards.getLast? = some ⟨"A", "spades"⟩ ∧
    FrenchDeck.suit_values.length = 4 ∧
    FrenchDeck.suit_values.lookup "spades" = some 3 ∧
    FrenchDeck.suit_values.lookup "hearts" = some 2 ∧
    FrenchDeck.suit_values.lookup "diamonds" = some 1 ∧
    FrenchDeck.suit_values.lookup "clubs" = some 0 ∧
    (FrenchDeck.cards.all fun c => (FrenchDeck.sorting c).isSome) = true ∧
    FrenchDeck.sorting ⟨"2", "clubs"⟩ = some 0 ∧
    FrenchDeck.sorting ⟨"A", "spades"⟩ = some 51 := by
  refine ⟨?_, ?_, ?_, ?_, ?_, ?_, ?_, ?_, ?_, ?_, ?_, ?_, ?_⟩
  · haveI : IsTotal Card (fun a b => FrenchDeck.sortKey a ≤ FrenchDeck.sortKey b) :=
      ⟨fun a b => Nat.le_total _ _⟩
    haveI : IsTrans Card (fun a b => FrenchDeck.sortKey a ≤ FrenchDeck.sortKey b) :=
      ⟨fun _ _ _ => Nat.le_trans⟩
    exact List.sorted_insertionSort _ _
  · exact List.perm_insertionSort _ _
  all_goals decide

/-- C2: picking from an empty cage turns the IndexError of popping an empty list
into a LookupError reading "pick from empty BingoCage"; picking from a cage holding
any shuffle of the constructor items succeeds and returns one of those items. -/
theorem C2_bingo_pick :
    BingoCage.pick ⟨[]⟩ = .error (.lookupError "pick from empty BingoCage") ∧
    ∀ (items shuffled : List Int), shuffled.Perm items → shuffled ≠ [] →
      ∃ (x : Int) (rest : List Int),
        BingoCage.pick ⟨shuffled⟩ = .ok (x, ⟨rest⟩) ∧ x ∈ items := by
  refine ⟨rfl, ?_⟩
  intro items shuffled hperm hne
  refine ⟨shuffled.getLast hne, shuffled.dropLast, ?_, ?_⟩
  · unfold BingoCage.pick listPop
    rw [List.getLast?_eq_getLast shuffled hne]
  · exact hperm.mem_iff.mp (List.getLast_mem hne)

/-- Witness for C2: a cage built from the items 0, 1, 2 (with the identity shuffle)
yields one of those items. -/
theorem C2_bingo_pick_witness :
    ∃ (x : Int) (rest : List Int),
      BingoCage.pick ⟨[0, 1, 2]⟩ = .ok (x, ⟨rest⟩) ∧ x ∈ [0, 1, 2] :=
  C2_bingo_pick.2 [0, 1, 2] [0, 1, 2] (List.Perm.refl _) (by decide)

/-- Helper: orderedInsert only compares the inserted element with list elements, so
two comparators agreeing on those pairs insert identically. -/
theorem orderedInsert_congr {α : Type} (r s : α → α → Prop)
    [DecidableRel r] [DecidableRel s] (x : α) (l : List α)
    (h : ∀ b ∈ l, r x b ↔ s x b) :
    List.orderedInsert r x l = List.orderedInsert s x l := by
  induction l with
  | nil => rfl
  | cons y ys ih =>
    simp only [List.orderedInsert]
    by_cases hr : r x y
    · rw [if_pos hr, if_pos ((h y (List.mem_cons_self y ys)).mp hr)]
    · rw [if_neg hr, if_neg (fun hs => hr ((h y (List.mem_cons_self y ys)).mpr hs)),
        ih (fun b hb => h b (List.mem_cons_of_mem y hb))]

/-- Helper: on a duplicate-free list, insertion sort compares only pairs of distinct
list elements, so two comparators agreeing on those pairs sort identically. -/
theorem insertionSort_congr {α : Type} (r s : α → α → Prop)
    [DecidableRel r] [DecidableRel s] (l : List α) (hnd : l.Nodup)
    (h : ∀ a ∈ l, ∀ b ∈ l, a ≠ b → (r a b ↔ s a b)) :
    List.insertionSort r l = List.insertionSort s l := by
  induction l with
  | nil => rfl
  | cons x xs ih =>
    simp only [List.insertionSort]
    rw [ih (List.Nodup.of_cons hnd) (fun a ha b hb hab =>
      h a (List.mem_cons_of_mem x ha) b (List.mem_cons_of_mem x hb) hab)]
    refine orderedInsert_congr r s x _ (fun b hb => ?_)
    have hbxs : b ∈ xs := (List.perm_insertionSort _ xs).mem_iff.mp hb
    have hxb : x ≠ b := fun he => (List.nodup_cons.mp hnd).1 (he ▸ hbxs)
    exact h x (List.mem_cons_self x xs) b (List.mem_cons_of_mem x hbxs) hxb

/-- Helper: dict item assignment keeps the keys duplicate-free. -/
theorem dictSet_keys_nodup (d : List (String × String)) (k v : String)
    (hnd : (d.map Prod.fst).Nodup) : ((dictSet d k v).map Prod.fst).Nodup := by
  unfold dictSet
  by_cases hany : d.any (fun p => p.1 == k)
  · rw [if_pos hany]
    have hkeys : (d.map (fun p => if p.1 == k then (k, v) else p)).map Prod.fst
        = d.map Prod.fst := by
      rw [List.map_map]
      refine List.map_congr_left (fun p _ => ?_)
      by_cases hpk : p.1 == k
      · simp only [Function.comp_apply, if_pos hpk]
        exact (eq_of_beq hpk).symm
      · simp only [Function.comp_apply, if_neg hpk]
    rw [hkeys]
    exact hnd
  · rw [if_neg hany, List.map_append]
    refine List.Nodup.append hnd (List.nodup_singleton k) ?_
    intro a ha hk
    rcases List.mem_map.mp ha with ⟨p, hp, hpa⟩
    rcases List.mem_singleton.mp hk with rfl
    exact hany (List.any_eq_true.mpr ⟨p, hp, by simp [hpa]⟩)

/-- Helper: on pairs with distinct keys, Python tuple comparison and comparison by
key alone agree. -/
theorem pairLeB_eq_keyLeB {a b : String × String} (h : a.1 ≠ b.1) :
    (pairLeB a b = true) ↔ (keyLeB a b = true) := by
  have hbe : (a.1 == b.1) = false := beq_eq_false_iff_ne.mpr h
  simp [pairLeB, keyLeB, strLe, hbe]

/-- Helper: with duplicate-free keys, sorting the attribute pairs by Python tuple
comparison is the same as sorting them by key alone. -/
theorem insertionSort_pairLe_eq_keyLe (l : List (String × String))
    (hnd : (l.map Prod.fst).Nodup) :
    List.insertionSort (fun a b => pairLeB a b = true) l =
    List.insertionSort (fun a b => keyLeB a b = true) l := by
  refine insertionSort_congr _ _ l (List.Nodup.of_map _ hnd) (fun a ha b hb hab => ?_)
  have hne : a.1 ≠ b.1 := fun he => hab (List.inj_on_of_nodup_map hnd ha hb he)
  exact pairLeB_eq_keyLeB hne

/-- Helper: the attribute string computed by tag equals the one computed by tagSpec
whenever the attribute keys are duplicate-free. -/
theorem attrStr_eq (attrs2 : List (String × String))
    (hnd : (attrs2.map Prod.fst).Nodup) :
    (if attrs2.isEmpty then ""
      else String.join
        ((List.insertionSort (fun a b => pairLeB a b = true) attrs2).map attrItem)) =
    String.join
      ((List.insertionSort (fun a b => keyLeB a b = true) attrs2).map attrItem) := by
  cases attrs2 with
  | nil => rfl
  | cons p ps =>
    rw [insertionSort_pairLe_eq_keyLe _ hnd]
    rfl

/-- Helper: the lexicographic code point order on character lists is trichotomous. -/
theorem charListLt_trichotomy (as bs : List Char) :
    charListLt as bs = true ∨ as = bs ∨ charListLt bs as = true := by
  induction as generalizing bs with
  | nil =>
    cases bs with
    | nil => exact Or.inr (Or.inl rfl)
    | cons b bs => exact Or.inl rfl
  | cons a as ih =>
    cases bs with
    | nil => exact Or.inr (Or.inr rfl)
    | cons b bs =>
      rcases lt_trichotomy a b with hab | hab | hab
      · left; simp [charListLt, hab]
      · subst hab
        rcases ih bs with h | h | h
        · left; simp [charListLt, lt_irrefl, h]
        · exact Or.inr (Or.inl (by rw [h]))
        · right; right; simp [charListLt, lt_irrefl, h]
      · right; right; simp [charListLt, hab]

/-- Helper: the lexicographic code point order on character lists is transitive. -/
theorem charListLt_trans {as bs cs : List Char} (h1 : charListLt as bs = true)
    (h2 : charListLt bs cs = true) : charListLt as cs = true := by
  induction as generalizing bs cs with
  | nil =>
    cases cs with
    | nil =>
      cases bs with
      | nil => simp [charListLt] at h1
      | cons b bs => simp [charListLt] at h2
    | cons c cs => simp [charListLt]
  | cons a as ih =>
    cases bs with
    | nil => simp [charListLt] at h1
    | cons b bs =>
      cases cs with
      | nil => simp [charListLt] at h2
      | cons c cs =>
        by_cases hab : a < b
        · by_cases hbc : b < c
          · simp [charListLt, lt_trans hab hbc]
          · by_cases hcb : c < b
            · simp [charListLt, hbc, hcb] at h2
            · have hb : b = c := le_antisymm (le_of_not_lt hcb) (le_of_not_lt hbc)
              subst hb
              simp [charListLt, hab]
        · by_cases hba : b < a
          · simp [charListLt, hab, hba] at h1
          · have ha : a = b := le_antisymm (le_of_not_lt hba) (le_of_not_lt hab)
            subst ha
            simp only [charListLt, lt_irrefl, if_false] at h1
            by_cases hac : a < c
            · simp [charListLt, hac]
            · by_cases hca : c < a
              · simp [charListLt, hac, hca] at h2
              · have hc : a = c := le_antisymm (le_of_not_lt hca) (le_of_not_lt hac)
                subst hc
                simp only [charListLt, lt_irrefl, if_false] at h2 ⊢
                exact ih h1 h2

/-- Helper: Python string comparison is total. -/
theorem strLe_total (a b : String) : strLe a b = true ∨ strLe b a = true := by
  rcases charListLt_trichotomy a.data b.data with h | h | h
  · left; simp [strLe, strLt, h]
  · have hab : a = b := by
      cases a with
      | mk da =>
        cases b with
        | mk db => exact congrArg String.mk (by simpa using h)
    left; simp [strLe, hab]
  · right; simp [strLe, strLt, h]

/-- Helper: Python string comparison is transitive. -/
theorem strLe_trans {a b c : String} (h1 : strLe a b = true) (h2 : strLe b c = true) :
    strLe a c = true := by
  simp only [strLe, Bool.or_eq_true, beq_iff_eq] at h1 h2 ⊢
  rcases h1 with h1 | h1
  · rcases h2 with h2 | h2
    · exact Or.inl (charListLt_trans h1 h2)
    · subst h2; exact Or.inl h1
  · subst h1; exact h2

/-- C6: whenever the keyword attributes have distinct keys (as a Python dict
guarantees), tag formats exactly as the specification reads: every attribute as
blank-key-equals-quoted-value in sorted key order with cls emitted as "class", one self-closing
string without content and newline-joined per-content strings with content. The
key ordering used by the specification reading is a genuine ascending sort, and
the listed test values of the repository hold. -/
theorem C6_tag_format :
    (∀ (name : String) (content : List String) (cls : Option String)
        (attrs : List (String × String)), (attrs.map Prod.fst).Nodup →
        tag name content cls attrs = tagSpec name content cls attrs) ∧
    (∀ l : List (String × String),
        List.Sorted (fun a b => keyLeB a b = true)
          (List.insertionSort (fun a b => keyLeB a b = true) l) ∧
        (List.insertionSort (fun a b => keyLeB a b = true) l).Perm l) ∧
    tag "br" [] none [] = "<br />" ∧
    tag "p" ["hello"] none [] = "<p>hello</p>" ∧
    tag "p" ["hello", "world"] none [] = "<p>hello</p>\n<p>world</p>" ∧
    tag "p" ["hello"] none [("id", "33")] = "<p id=\"33\">hello</p>" ∧
    tag "p" ["hello", "world"] (some "sidebar") [] =
      "<p class=\"sidebar\">hello</p>\n<p class=\"sidebar\">world</p>" ∧
    tag "img" [] none [("content", "testing")] = "<img content=\"testing\" />" ∧
    tag "img" [] (some "framed") [("title", "Sunset Boulevard"), ("src", "sunset.jpg")] =
      "<img class=\"framed\" src=\"sunset.jpg\" title=\"Sunset Boulevard\" />" := by
  refine ⟨?_, ?_, ?_, ?_, ?_, ?_, ?_, ?_, ?_⟩
  · intro name content cls attrs hnd
    cases cls with
    | none =>
      simp only [tag, tagSpec]
      rw [attrStr_eq attrs hnd]
      cases content with
      | nil => rfl
      | cons c cs => rfl
    | some cv =>
      simp only [tag, tagSpec]
      rw [attrStr_eq _ (dictSet_keys_nodup attrs "class" cv hnd)]
      cases content with
      | nil => rfl
      | cons c cs => rfl
  · intro l
    haveI : IsTotal (String × String) (fun a b => keyLeB a b = true) :=
      ⟨fun a b => strLe_total a.1 b.1⟩
    haveI : IsTrans (String × String) (fun a b => keyLeB a b = true) :=
      ⟨fun _ _ _ h1 h2 => strLe_trans h1 h2⟩
    exact ⟨List.sorted_insertionSort _ _, List.perm_insertionSort _ _⟩
  all_goals decide

/-- Witness for C6 at the attrs dict of the partial-application test. -/
theorem C6_tag_format_witness :
    tag "img" [] (some "framed") [("title", "Sunset Boulevard"), ("src", "sunset.jpg")] =
      tagSpec "img" [] (some "framed") [("title", "Sunset Boulevard"), ("src", "sunset.jpg")] :=
  C6_tag_format.1 "img" [] (some "framed")
    [("title", "Sunset Boulevard"), ("src", "sunset.jpg")] (by decide)

end Flupy
